import Mathlib

/-!
Shallow embedding of the PytSite `cache_redis` plugin driver (`src/_driver.py`,
class `Redis`) over an explicit model of the Redis backend state.

Strings are modelled as lists of characters (`Str`), the backend keyspace as an
association list from fully-qualified key names to entries, and each entry as a
Redis value (string / hash / list of serialized payloads) together with an
optional TTL in seconds.  Pickle serialization is modelled as an injective
wrapper (`dumps` / `loads`): its byte format is opaque to the driver, and a
pickled payload is never the empty byte string, so Python truthiness tests on a
pickled payload (`if not v`) distinguish only `None` from data; the model
renders an absent reply as `Option.none`.
-/

deriving instance DecidableEq for Except

namespace CacheRedis

/-- Python strings (and backend key/field names), as lists of characters. -/
abbrev Str := List Char

/-- The Python values that flow through the driver in this development. -/
inductive PVal where
  | int (n : Int)
  | str (s : Str)
  | bool (b : Bool)
  | pyNone
  deriving DecidableEq, Repr

/-- A pickled payload (`pickle.dumps` output).  The format is opaque; only the
round-trip identity matters.  A pickled payload is never empty bytes. -/
structure Ser where
  payload : PVal
  deriving DecidableEq, Repr

/-- Model of `pickle.dumps`. -/
def dumps (v : PVal) : Ser := ⟨v⟩

/-- Model of `pickle.loads`. -/
def loads (s : Ser) : PVal := s.payload

theorem loads_dumps (v : PVal) : loads (dumps v) = v := rfl

/-- A Python value that is either a `bytes` object or a `str` object; backend
replies carry field names as `bytes`, while caller-supplied field names are
`str`.  `.decode('utf-8')` exists only on `bytes`. -/
inductive BS where
  | bytes (s : Str)
  | str (s : Str)
  deriving DecidableEq, Repr

/-- Errors observable from the driver. `redis e` is an uncaught backend
exception propagating through the driver; `attributeError` is a Python
`AttributeError` (e.g. calling `.decode` on a `str`). -/
inductive RedisErr where
  | wrongType
  | responseError (msg : Str)
  deriving DecidableEq, Repr

inductive DriverErr where
  | keyNotExist (pool key : Str)
  | hashKeyNotExists (pool key : Str) (field : BS)
  | attributeError
  | redis (e : RedisErr)
  deriving DecidableEq, Repr

/-- A Redis value: a string (bytes), a hash (field name to bytes), or a list
of bytes.  Hashes are association lists in field insertion order. -/
inductive RVal where
  | str (s : Ser)
  | hash (h : List (Str × Ser))
  | list (l : List Ser)
  deriving DecidableEq, Repr

/-- A stored entry: the value plus its optional TTL (seconds). -/
abbrev Entry := RVal × Option Nat

/-- The backend keyspace: fully-qualified key name to entry, in key insertion
order (Redis key iteration order is unspecified; any fixed order is sound). -/
abbrev State := List (Str × Entry)

/-- Lookup in an association list (first match). -/
def alLookup {β : Type} (k : Str) : List (Str × β) → Option β
  | [] => none
  | (k', v) :: rest => if k' = k then some v else alLookup k rest

/-- Update-or-append in an association list; an existing binding keeps its
position (as a Python dict or a Redis hash does). -/
def alUpdate {β : Type} (al : List (Str × β)) (k : Str) (v : β) : List (Str × β) :=
  match al with
  | [] => [(k, v)]
  | (k', v') :: rest => if k' = k then (k, v) :: rest else (k', v') :: alUpdate rest k v

/-- Apply a batch of field updates left to right (`HMSET` field list). -/
def alUpdates {β : Type} (al : List (Str × β)) (pairs : List (Str × β)) : List (Str × β) :=
  pairs.foldl (fun acc kv => alUpdate acc kv.1 kv.2) al

def stLookup (k : Str) (st : State) : Option Entry := alLookup k st

def stSet (k : Str) (e : Entry) (st : State) : State := alUpdate st k e

def stDel (k : Str) (st : State) : State := st.filter (fun kv => kv.1 ≠ k)

theorem alLookup_update_self {β : Type} (al : List (Str × β)) (k : Str) (v : β) :
    alLookup k (alUpdate al k v) = some v := by
  induction al with
  | nil => simp [alLookup, alUpdate]
  | cons kv rest ih =>
    obtain ⟨k', v'⟩ := kv
    by_cases h : k' = k
    · simp [alLookup, alUpdate, h]
    · simp [alLookup, alUpdate, h, ih]

theorem stLookup_set_self (k : Str) (e : Entry) (st : State) :
    stLookup k (stSet k e st) = some e :=
  alLookup_update_self st k e

/-! ## The backend client (`redis.StrictRedis`) primitives used by the driver.

Each primitive mirrors the Redis command semantics observed by the driver:
operations on a key holding a value of the wrong type answer a `WRONGTYPE`
error; absent keys follow each command's documented absent-key behaviour.
`none` in a reply models the RESP null (`nil`) reply. -/

namespace StrictRedis

/-- Command `EXISTS key` (redis-py returns it truthily; the driver types it `bool`). -/
def exists_ (k : Str) (st : State) : Bool := (stLookup k st).isSome

/-- Command `SET key value [EX ttl]`: overwrites any existing entry (and its TTL). -/
def set (k : Str) (s : Ser) (ttl : Option Nat) (st : State) : State :=
  stSet k (.str s, ttl) st

/-- Command `GET key`: null for an absent key, the bytes for a string key. -/
def get (k : Str) (st : State) : Except RedisErr (Option Ser) :=
  match stLookup k st with
  | none => .ok none
  | some (.str s, _) => .ok (some s)
  | some _ => .error .wrongType

/-- Command `HMSET key f1 v1 ...`: creates the hash or merges the given fields into an
existing hash; the key's TTL is unaffected.  (The driver never sends an empty
field list: `put_hash` injects the empty-hash marker first.) -/
def hmset (k : Str) (pairs : List (Str × Ser)) (st : State) : Except RedisErr State :=
  match stLookup k st with
  | none => .ok (stSet k (.hash (alUpdates [] pairs), none) st)
  | some (.hash h, t) => .ok (stSet k (.hash (alUpdates h pairs), t) st)
  | some _ => .error .wrongType

/-- Command `HSET key field value`. -/
def hset (k : Str) (f : Str) (s : Ser) (st : State) : Except RedisErr State :=
  hmset k [(f, s)] st

/-- Command `HGET key field`: null when the key or the field is absent. -/
def hget (k : Str) (f : Str) (st : State) : Except RedisErr (Option Ser) :=
  match stLookup k st with
  | none => .ok none
  | some (.hash h, _) => .ok (alLookup f h)
  | some _ => .error .wrongType

/-- Command `HMGET key f1 f2 ...`: a reply per requested field, null for absent ones. -/
def hmget (k : Str) (fs : List Str) (st : State) : Except RedisErr (List (Option Ser)) :=
  match stLookup k st with
  | none => .ok (fs.map (fun _ => none))
  | some (.hash h, _) => .ok (fs.map (fun f => alLookup f h))
  | some _ => .error .wrongType

/-- Command `HVALS key`: empty for an absent key. -/
def hvals (k : Str) (st : State) : Except RedisErr (List Ser) :=
  match stLookup k st with
  | none => .ok []
  | some (.hash h, _) => .ok (h.map (fun fv => fv.2))
  | some _ => .error .wrongType

/-- Command `HKEYS key`: empty for an absent key; field names come back as `bytes`. -/
def hkeys (k : Str) (st : State) : Except RedisErr (List Str) :=
  match stLookup k st with
  | none => .ok []
  | some (.hash h, _) => .ok (h.map (fun fv => fv.1))
  | some _ => .error .wrongType

/-- Command `LLEN key`: 0 for an absent key. -/
def llen (k : Str) (st : State) : Except RedisErr Nat :=
  match stLookup k st with
  | none => .ok 0
  | some (.list l, _) => .ok l.length
  | some _ => .error .wrongType

/-- Command `LRANGE` index arithmetic: negative indices count from the tail and clamp
at 0; a stop beyond the last element is clamped to the last element; both
bounds are inclusive. -/
def lrangeList (l : List Ser) (start stop : Int) : List Ser :=
  let n : Int := l.length
  let s : Int := if start < 0 then max (n + start) 0 else start
  let e : Int := if stop < 0 then n + stop else stop
  let e2 : Int := min e (n - 1)
  if s > e2 then [] else (l.take (e2.toNat + 1)).drop s.toNat

/-- Command `LRANGE key start stop`: empty for an absent key. -/
def lrange (k : Str) (start stop : Int) (st : State) : Except RedisErr (List Ser) :=
  match stLookup k st with
  | none => .ok []
  | some (.list l, _) => .ok (lrangeList l start stop)
  | some _ => .error .wrongType

/-- Command `RPUSH key value`: creates a one-element list at an absent key; answers
the new length; the key's TTL is unaffected. -/
def rpush (k : Str) (s : Ser) (st : State) : Except RedisErr (Nat × State) :=
  match stLookup k st with
  | none => .ok (1, stSet k (.list [s], none) st)
  | some (.list l, t) => .ok (l.length + 1, stSet k (.list (l ++ [s]), t) st)
  | some _ => .error .wrongType

/-- Command `LPUSH key value`. -/
def lpush (k : Str) (s : Ser) (st : State) : Except RedisErr (Nat × State) :=
  match stLookup k st with
  | none => .ok (1, stSet k (.list [s], none) st)
  | some (.list l, t) => .ok (l.length + 1, stSet k (.list (s :: l), t) st)
  | some _ => .error .wrongType

/-- Command `LPOP key`: null for an absent (hence also for a never-representable
empty) list; removing the last element deletes the key. -/
def lpop (k : Str) (st : State) : Except RedisErr (Option Ser × State) :=
  match stLookup k st with
  | none => .ok (none, st)
  | some (.list [], _) => .ok (none, st)
  | some (.list (h :: tl), t) =>
    .ok (some h, if tl = [] then stDel k st else stSet k (.list tl, t) st)
  | some _ => .error .wrongType

/-- Command `RPOP key`. -/
def rpop (k : Str) (st : State) : Except RedisErr (Option Ser × State) :=
  match stLookup k st with
  | none => .ok (none, st)
  | some (.list l, t) =>
    match l.getLast? with
    | none => .ok (none, st)
    | some x =>
      .ok (some x, if l.dropLast = [] then stDel k st else stSet k (.list l.dropLast, t) st)
  | some _ => .error .wrongType

/-- Command `EXPIRE key ttl`: answers whether the key existed. -/
def expire (k : Str) (t : Nat) (st : State) : Bool × State :=
  match stLookup k st with
  | none => (false, st)
  | some (v, _) => (true, stSet k (v, some t) st)

/-- Command `TTL key`: -2 for an absent key, -1 for a key with no expiration, else
the remaining seconds. -/
def ttl (k : Str) (st : State) : Int :=
  match stLookup k st with
  | none => -2
  | some (_, none) => -1
  | some (_, some t) => (t : Int)

/-- The `no such key` message of the backend's RENAME error reply. -/
def noSuchKeyMsg : Str := "no such key".data

/-- Command `RENAME key newkey`: moves the entry (value and TTL) to `newkey`,
overwriting it; errors with `no such key` when the source is absent. -/
def rename (k k2 : Str) (st : State) : Except RedisErr State :=
  match stLookup k st with
  | none => .error (.responseError noSuchKeyMsg)
  | some e => .ok (stSet k2 e (stDel k st))

/-- Command `KEYS pre*`: every key having `pre` as a prefix.  (The driver only ever
uses patterns of the shape `prefix*`; no other glob metacharacter occurs in
them, so glob matching degenerates to a prefix test.)  Key names come back as
`bytes` and are decoded by the caller; the model carries them as `Str`. -/
def keysPre (pre : Str) (st : State) : List Str :=
  (st.filter (fun kv => pre.isPrefixOf kv.1)).map (fun kv => kv.1)

/-- Command `DELETE key`. -/
def delete (k : Str) (st : State) : State := stDel k st

end StrictRedis

/-! ## Python `str.replace` (all occurrences, leftmost first, non-overlapping).

Written with an explicit fuel argument (the scan position budget) so that the
function is structurally recursive and evaluates by kernel reduction.  The
driver only ever replaces a non-empty pattern (the pool namespace prefix), so
the Python behaviour for an empty pattern is irrelevant and the scan simply
copies the input when the pattern is empty. -/

def replAllGo (pat repl : Str) : Nat → Str → Str
  | _, [] => []
  | Nat.succ fuel, c :: cs =>
    if pat.isPrefixOf (c :: cs) && !pat.isEmpty then
      repl ++ replAllGo pat repl fuel (List.drop (pat.length - 1) cs)
    else
      c :: replAllGo pat repl fuel cs
  | 0, s => s

/-- Python `s.replace(pat, repl)`. -/
def replaceAll (s pat repl : Str) : Str := replAllGo pat repl s.length s

/-- Whether `pat` occurs as a contiguous substring of `s`. -/
def containsSub (pat : Str) : Str → Bool
  | [] => pat.isPrefixOf []
  | c :: cs => pat.isPrefixOf (c :: cs) || containsSub pat cs

/-! ## The driver (`src/_driver.py`, class `Redis`).

`sn` is the process-wide `_server_name` constant, passed explicitly.  Methods
that mutate the backend return the new state alongside the Python return
value; methods that can raise return `Except DriverErr`. -/

namespace Redis

/-- Method `Redis._fqkn`. -/
def fqkn (sn pool key : Str) : Str := sn ++ ':' :: (pool ++ ':' :: key)

/-- The pool namespace prefix built inside `Redis.keys`
(`_server_name + ':' + pool + ':'`); `fqkn sn pool key = poolNs sn pool ++ key`. -/
def poolNs (sn pool : Str) : Str := sn ++ ':' :: (pool ++ [':'])

theorem fqkn_eq_poolNs_append (sn pool key : Str) :
    fqkn sn pool key = poolNs sn pool ++ key := by
  simp [fqkn, poolNs]

/-- Method `Redis.keys`: scans the pool's namespace and strips the prefix from each
backend key with Python's `str.replace` (which replaces every occurrence). -/
def keys (sn pool : Str) (st : State) : List Str :=
  (StrictRedis.keysPre (poolNs sn pool) st).map (fun k => replaceAll k (poolNs sn pool) [])

/-- Method `Redis.has`. -/
def has (sn pool key : Str) (st : State) : Bool :=
  StrictRedis.exists_ (fqkn sn pool key) st

/-- Method `Redis.put`. -/
def put (sn pool key : Str) (value : PVal) (ttl : Option Nat) (st : State) : PVal × State :=
  (value, StrictRedis.set (fqkn sn pool key) (dumps value) ttl st)

/-- Method `Redis.get`. -/
def get (sn pool key : Str) (st : State) : Except DriverErr PVal :=
  match StrictRedis.get (fqkn sn pool key) st with
  | .error e => .error (.redis e)
  | .ok none => .error (.keyNotExist pool key)
  | .ok (some s) => .ok (loads s)

/-- The reserved empty-hash marker field name. -/
def marker : Str := "__pytsite_empty_hash_marker".data

/-- Method `Redis.put_hash`.  `if not value` injects the marker; `if ttl` (Python
truthiness: `None` and `0` are both falsy) guards the expiration. -/
def put_hash (sn pool key : Str) (value : List (Str × PVal)) (ttl : Option Nat) (st : State) :
    Except DriverErr (List (Str × PVal) × State) :=
  let value := if value.isEmpty then [(marker, PVal.bool true)] else value
  let fq := fqkn sn pool key
  match StrictRedis.hmset fq (value.map (fun kv => (kv.1, dumps kv.2))) st with
  | .error e => .error (.redis e)
  | .ok st1 =>
    let st2 := match ttl with
      | some t => if t ≠ 0 then (StrictRedis.expire fq t st1).2 else st1
      | none => st1
    .ok (value, st2)

/-- Method `Redis.put_hash_item`. -/
def put_hash_item (sn pool key itemKey : Str) (value : PVal) (ttl : Option Nat) (st : State) :
    Except DriverErr (PVal × State) :=
  let fq := fqkn sn pool key
  match StrictRedis.hset fq itemKey (dumps value) st with
  | .error e => .error (.redis e)
  | .ok st1 =>
    let st2 := match ttl with
      | some t => if t ≠ 0 then (StrictRedis.expire fq t st1).2 else st1
      | none => st1
    .ok (value, st2)

/-- Python `hash_keys[i].decode('utf-8')`: decoding succeeds on `bytes` (backend
replies) and raises `AttributeError` on `str` (caller-supplied field names),
since Python 3 strings have no `.decode`. -/
def bsDecode : BS → Except DriverErr Str
  | .bytes s => .ok s
  | .str _ => .error .attributeError

/-- The result-building loop of `Redis.get_hash`: for each (value, field)
pair, a null value raises `HashKeyNotExists(pool, fq_key, field)`, then the
field name is decoded, and every field other than the empty-hash marker is
inserted into the result dict. -/
def buildHash (pool fqk : Str) : List (Option Ser × BS) → List (Str × PVal) →
    Except DriverErr (List (Str × PVal))
  | [], r => .ok r
  | (none, f) :: _, _ => .error (.hashKeyNotExists pool fqk f)
  | (some v, f) :: rest, r =>
    match bsDecode f with
    | .error e => .error e
    | .ok k => buildHash pool fqk rest (if k ≠ marker then alUpdate r k (loads v) else r)

/-- Method `Redis.get_hash`.  `if hash_keys` is truthy only for a non-empty list, so
`some []` takes the `hvals`/`hkeys` branch exactly as `None` does. -/
def get_hash (sn pool key : Str) (hashKeys : Option (List Str)) (st : State) :
    Except DriverErr (List (Str × PVal)) :=
  if has sn pool key st then
    let fq := fqkn sn pool key
    match hashKeys with
    | some (f :: fs) =>
      match StrictRedis.hmget fq (f :: fs) st with
      | .error e => .error (.redis e)
      | .ok values => buildHash pool fq (values.zip ((f :: fs).map BS.str)) []
    | _ =>
      match StrictRedis.hvals fq st with
      | .error e => .error (.redis e)
      | .ok values =>
        match StrictRedis.hkeys fq st with
        | .error e => .error (.redis e)
        | .ok fields => buildHash pool fq ((values.map some).zip (fields.map BS.bytes)) []
  else .error (.keyNotExist pool key)

/-- Method `Redis.get_hash_item`.  `_pickle.loads(r) if r else default`: a pickled
payload is never empty bytes, so the truthiness test distinguishes exactly
null from data. -/
def get_hash_item (sn pool key itemKey : Str) (default : PVal) (st : State) :
    Except DriverErr PVal :=
  if has sn pool key st then
    match StrictRedis.hget (fqkn sn pool key) itemKey st with
    | .error e => .error (.redis e)
    | .ok (some r) => .ok (loads r)
    | .ok none => .ok default
  else .error (.keyNotExist pool key)

/-- Method `Redis.list_len`. -/
def list_len (sn pool key : Str) (st : State) : Except DriverErr Nat :=
  if has sn pool key st then
    match StrictRedis.llen (fqkn sn pool key) st with
    | .error e => .error (.redis e)
    | .ok n => .ok n
  else .error (.keyNotExist pool key)

/-- Method `Redis.get_list`.  `end = self.list_len(pool, key) if end is None else
end - 1`, then `LRANGE start end`. -/
def get_list (sn pool key : Str) (start : Int) (end_ : Option Int) (st : State) :
    Except DriverErr (List PVal) :=
  if has sn pool key st then
    let stopE : Except DriverErr Int :=
      match end_ with
      | none =>
        match list_len sn pool key st with
        | .error e => .error e
        | .ok n => .ok (n : Int)
      | some e => .ok (e - 1)
    match stopE with
    | .error e => .error e
    | .ok stop =>
      match StrictRedis.lrange (fqkn sn pool key) start stop st with
      | .error e => .error (.redis e)
      | .ok ss => .ok (ss.map loads)
  else .error (.keyNotExist pool key)

/-- Method `Redis.list_r_push`.  `if ttl is not None` (not truthiness). -/
def list_r_push (sn pool key : Str) (value : PVal) (ttl : Option Nat) (st : State) :
    Except DriverErr (Nat × State) :=
  match StrictRedis.rpush (fqkn sn pool key) (dumps value) st with
  | .error e => .error (.redis e)
  | .ok (r, st1) =>
    match ttl with
    | some t => .ok (r, (StrictRedis.expire (fqkn sn pool key) t st1).2)
    | none => .ok (r, st1)

/-- Method `Redis.rm`. -/
def rm (sn pool key : Str) (st : State) : State :=
  StrictRedis.delete (fqkn sn pool key) st

/-- Method `Redis.expire`. -/
def expire (sn pool key : Str) (t : Nat) (st : State) : Bool × State :=
  StrictRedis.expire (fqkn sn pool key) t st

/-- The push loop of `Redis.put_list` (`for v in value: self.list_r_push(...)`). -/
def pushAll (sn pool key : Str) : List PVal → State → Except DriverErr State
  | [], st => .ok st
  | v :: vs, st =>
    match list_r_push sn pool key v none st with
    | .error e => .error e
    | .ok (_, st1) => pushAll sn pool key vs st1

/-- Method `Redis.put_list`: delete, tail-push each element, then `if ttl is not
None` apply the expiration. -/
def put_list (sn pool key : Str) (value : List PVal) (ttl : Option Nat) (st : State) :
    Except DriverErr (List PVal × State) :=
  match pushAll sn pool key value (rm sn pool key st) with
  | .error e => .error e
  | .ok st1 =>
    let st2 := match ttl with
      | some t => (expire sn pool key t st1).2
      | none => st1
    .ok (value, st2)

/-- Method `Redis.list_l_pop`.  `if not v`: a pickled payload is never empty bytes,
so the test is exactly the null check. -/
def list_l_pop (sn pool key : Str) (st : State) : Except DriverErr (PVal × State) :=
  match StrictRedis.lpop (fqkn sn pool key) st with
  | .error e => .error (.redis e)
  | .ok (none, _) => .error (.keyNotExist pool key)
  | .ok (some s, st1) => .ok (loads s, st1)

/-- Method `Redis.list_r_pop`. -/
def list_r_pop (sn pool key : Str) (st : State) : Except DriverErr (PVal × State) :=
  match StrictRedis.rpop (fqkn sn pool key) st with
  | .error e => .error (.redis e)
  | .ok (none, _) => .error (.keyNotExist pool key)
  | .ok (some s, st1) => .ok (loads s, st1)

/-- Method `Redis.ttl`.  Note that the Python code rebinds `key` to the fully
qualified name before raising, so `KeyNotExist` carries the fully qualified
key; `-2` means absent, and `r if r >= 0 else None` maps `-1` to `None`. -/
def ttl (sn pool key : Str) (st : State) : Except DriverErr (Option Int) :=
  let fq := fqkn sn pool key
  let r := StrictRedis.ttl fq st
  if r = -2 then .error (.keyNotExist pool fq)
  else .ok (if r ≥ 0 then some r else none)

/-- The `try/except` of `Redis.rnm`: only a backend `ResponseError` is
caught; a `no such key` message becomes `KeyNotExist(pool, key)` and any
other error is re-raised unchanged. -/
def rnmHandle (pool key : Str) : Except RedisErr State → Except DriverErr State
  | .ok st => .ok st
  | .error (.responseError s) =>
    if s = StrictRedis.noSuchKeyMsg then .error (.keyNotExist pool key)
    else .error (.redis (.responseError s))
  | .error e => .error (.redis e)

/-- Method `Redis.rnm`. -/
def rnm (sn pool key newKey : Str) (st : State) : Except DriverErr State :=
  rnmHandle pool key (StrictRedis.rename (fqkn sn pool key) (fqkn sn pool newKey) st)

end Redis

/-! ## Claim theorems -/

/-- Claim C6: for every pool, key and value, `put` followed by `get` returns
a value equal to the one stored (serialization round-trip through the
driver), and `put` returns its argument unchanged. -/
theorem c6_put_get_roundtrip (sn pool key : Str) (v : PVal) (ttl : Option Nat) (st : State) :
    (Redis.put sn pool key v ttl st).1 = v ∧
    Redis.get sn pool key (Redis.put sn pool key v ttl st).2 = .ok v := by
  refine ⟨rfl, ?_⟩
  simp [Redis.put, Redis.get, StrictRedis.get, StrictRedis.set, stLookup_set_self, loads, dumps]

/-- Claim C5: `ttl` raises `KeyNotExist` exactly when the key is absent,
answers `None` exactly when the key exists with no expiration, and answers
the stored non-negative remaining time exactly when an expiration is set;
the three backend states map to three pairwise distinct outcomes. -/
theorem c5_ttl_trichotomy (sn pool key : Str) (st : State) :
    (stLookup (Redis.fqkn sn pool key) st = none →
      Redis.ttl sn pool key st = .error (.keyNotExist pool (Redis.fqkn sn pool key))) ∧
    (∀ v : RVal, stLookup (Redis.fqkn sn pool key) st = some (v, none) →
      Redis.ttl sn pool key st = .ok none) ∧
    (∀ (v : RVal) (t : Nat), stLookup (Redis.fqkn sn pool key) st = some (v, some t) →
      Redis.ttl sn pool key st = .ok (some (t : Int)) ∧ 0 ≤ (t : Int)) := by
  refine ⟨fun h => ?_, fun v h => ?_, fun v t h => ⟨?_, by omega⟩⟩
  · simp [Redis.ttl, StrictRedis.ttl, h]
  · simp [Redis.ttl, StrictRedis.ttl, h]
  · have h2 : ¬((t : Int) = -2) := by omega
    have h0 : (0 : Int) ≤ (t : Int) := by omega
    simp [Redis.ttl, StrictRedis.ttl, h, h2, h0]

/-- Witness for C5 at concrete states: an absent key, a key with no
expiration, and a key with a 5-second expiration. -/
theorem c5_ttl_trichotomy_witness :
    Redis.ttl "s".data "p".data "k".data [] =
      .error (.keyNotExist "p".data (Redis.fqkn "s".data "p".data "k".data)) ∧
    Redis.ttl "s".data "p".data "k".data
      [(Redis.fqkn "s".data "p".data "k".data, (.str (dumps (.int 1)), none))] = .ok none ∧
    Redis.ttl "s".data "p".data "k".data
      [(Redis.fqkn "s".data "p".data "k".data, (.str (dumps (.int 1)), some 5))] =
      .ok (some 5) :=
  ⟨(c5_ttl_trichotomy "s".data "p".data "k".data []).1 (by decide),
   (c5_ttl_trichotomy "s".data "p".data "k".data
      [(Redis.fqkn "s".data "p".data "k".data, (.str (dumps (.int 1)), none))]).2.1
      (.str (dumps (.int 1))) (by decide),
   ((c5_ttl_trichotomy "s".data "p".data "k".data
      [(Redis.fqkn "s".data "p".data "k".data, (.str (dumps (.int 1)), some 5))]).2.2
      (.str (dumps (.int 1))) 5 (by decide)).1⟩

/-- Claim C7: `list_l_pop` and `list_r_pop` raise `KeyNotExist` when the list
is absent (or, were it representable, empty); on a non-empty list `list_l_pop`
removes and returns the head and `list_r_pop` removes and returns the last
element, the key disappearing when the last element is popped. -/
theorem c7_list_pops (sn pool key : Str) (st : State) :
    (stLookup (Redis.fqkn sn pool key) st = none →
      Redis.list_l_pop sn pool key st = .error (.keyNotExist pool key) ∧
      Redis.list_r_pop sn pool key st = .error (.keyNotExist pool key)) ∧
    (∀ t, stLookup (Redis.fqkn sn pool key) st = some (.list [], t) →
      Redis.list_l_pop sn pool key st = .error (.keyNotExist pool key) ∧
      Redis.list_r_pop sn pool key st = .error (.keyNotExist pool key)) ∧
    (∀ h tl t, stLookup (Redis.fqkn sn pool key) st = some (.list (h :: tl), t) →
      Redis.list_l_pop sn pool key st =
        .ok (loads h, if tl = [] then stDel (Redis.fqkn sn pool key) st
          else stSet (Redis.fqkn sn pool key) (.list tl, t) st)) ∧
    (∀ l x t, stLookup (Redis.fqkn sn pool key) st = some (.list l, t) →
      l.getLast? = some x →
      Redis.list_r_pop sn pool key st =
        .ok (loads x, if l.dropLast = [] then stDel (Redis.fqkn sn pool key) st
          else stSet (Redis.fqkn sn pool key) (.list l.dropLast, t) st)) := by
  refine ⟨fun h => ⟨?_, ?_⟩, fun t h => ⟨?_, ?_⟩, fun hd tl t h => ?_, fun l x t h hx => ?_⟩
  · simp [Redis.list_l_pop, StrictRedis.lpop, h]
  · simp [Redis.list_r_pop, StrictRedis.rpop, h]
  · simp [Redis.list_l_pop, StrictRedis.lpop, h]
  · simp [Redis.list_r_pop, StrictRedis.rpop, h]
  · by_cases he : tl = [] <;> simp [Redis.list_l_pop, StrictRedis.lpop, h, he]
  · by_cases he : l.dropLast = [] <;> simp [Redis.list_r_pop, StrictRedis.rpop, h, hx, he]

/-- Witness for C7: popping from an absent key errors; popping both ends of a
two-element list returns the head resp. the last element and removes it. -/
theorem c7_list_pops_witness :
    Redis.list_l_pop "s".data "p".data "k".data [] = .error (.keyNotExist "p".data "k".data) ∧
    Redis.list_l_pop "s".data "p".data "k".data
      [(Redis.fqkn "s".data "p".data "k".data, (.list [dumps (.int 10), dumps (.int 20)], none))] =
      .ok (.int 10,
        [(Redis.fqkn "s".data "p".data "k".data, (.list [dumps (.int 20)], none))]) ∧
    Redis.list_r_pop "s".data "p".data "k".data
      [(Redis.fqkn "s".data "p".data "k".data, (.list [dumps (.int 10), dumps (.int 20)], none))] =
      .ok (.int 20,
        [(Redis.fqkn "s".data "p".data "k".data, (.list [dumps (.int 10)], none))]) :=
  ⟨((c7_list_pops "s".data "p".data "k".data []).1 (by decide)).1,
   (c7_list_pops "s".data "p".data "k".data
      [(Redis.fqkn "s".data "p".data "k".data,
        (.list [dumps (.int 10), dumps (.int 20)], none))]).2.2.1
      (dumps (.int 10)) [dumps (.int 20)] none (by decide),
   (c7_list_pops "s".data "p".data "k".data
      [(Redis.fqkn "s".data "p".data "k".data,
        (.list [dumps (.int 10), dumps (.int 20)], none))]).2.2.2
      [dumps (.int 10), dumps (.int 20)] (dumps (.int 20)) none (by decide) (by decide)⟩

/-- Claim C8: `rnm` raises `KeyNotExist` when the source key is absent, any
backend error other than the recognized `no such key` response propagates to
the caller unchanged (uncaught), and on success the entry — value together
with its TTL — formerly at the source key is found at the destination key. -/
theorem c8_rnm (sn pool key newKey : Str) (st : State) :
    (stLookup (Redis.fqkn sn pool key) st = none →
      Redis.rnm sn pool key newKey st = .error (.keyNotExist pool key)) ∧
    (∀ e : RedisErr, e ≠ .responseError StrictRedis.noSuchKeyMsg →
      Redis.rnmHandle pool key (.error e) = .error (.redis e)) ∧
    (∀ ent : Entry, stLookup (Redis.fqkn sn pool key) st = some ent →
      Redis.rnm sn pool key newKey st =
        .ok (stSet (Redis.fqkn sn pool newKey) ent (stDel (Redis.fqkn sn pool key) st)) ∧
      stLookup (Redis.fqkn sn pool newKey)
        (stSet (Redis.fqkn sn pool newKey) ent (stDel (Redis.fqkn sn pool key) st)) =
        some ent) := by
  refine ⟨fun h => ?_, fun e he => ?_, fun ent h => ⟨?_, stLookup_set_self _ _ _⟩⟩
  · simp [Redis.rnm, Redis.rnmHandle, StrictRedis.rename, h]
  · cases e with
    | wrongType => simp [Redis.rnmHandle]
    | responseError s =>
      have hs : ¬(s = StrictRedis.noSuchKeyMsg) := fun hc => he (by rw [hc])
      simp [Redis.rnmHandle, hs]
  · simp [Redis.rnm, Redis.rnmHandle, StrictRedis.rename, h]

/-- Witness for C8: renaming an absent key errors; a `WRONGTYPE` backend
error passes through the handler unchanged; renaming an existing key moves
its value and TTL to the new key. -/
theorem c8_rnm_witness :
    Redis.rnm "s".data "p".data "k".data "k2".data [] =
      .error (.keyNotExist "p".data "k".data) ∧
    Redis.rnmHandle "p".data "k".data (.error .wrongType) = .error (.redis .wrongType) ∧
    Redis.rnm "s".data "p".data "k".data "k2".data
      [(Redis.fqkn "s".data "p".data "k".data, (.str (dumps (.int 7)), some 9))] =
      .ok [(Redis.fqkn "s".data "p".data "k2".data, (.str (dumps (.int 7)), some 9))] ∧
    stLookup (Redis.fqkn "s".data "p".data "k2".data)
      [(Redis.fqkn "s".data "p".data "k2".data, (.str (dumps (.int 7)), some 9))] =
      some (.str (dumps (.int 7)), some 9) :=
  ⟨(c8_rnm "s".data "p".data "k".data "k2".data []).1 (by decide),
   (c8_rnm "s".data "p".data "k".data "k2".data []).2.1 .wrongType (by decide),
   ((c8_rnm "s".data "p".data "k".data "k2".data
      [(Redis.fqkn "s".data "p".data "k".data, (.str (dumps (.int 7)), some 9))]).2.2
      (.str (dumps (.int 7)), some 9) (by decide)).1,
   ((c8_rnm "s".data "p".data "k".data "k2".data
      [(Redis.fqkn "s".data "p".data "k".data, (.str (dumps (.int 7)), some 9))]).2.2
      (.str (dumps (.int 7)), some 9) (by decide)).2⟩

/-- Lemma: `alUpdates` with a single pair is a single `alUpdate`. -/
theorem alUpdates_single {β : Type} (al : List (Str × β)) (k : Str) (v : β) :
    alUpdates al [(k, v)] = alUpdate al k v := rfl

/-- Claim C10: whenever `put_hash(p, k, {})` succeeds in storing an empty
hash, `get_hash_item(p, k, '__pytsite_empty_hash_marker', default)` returns
the marker value `True` rather than the supplied default: the single-field
read path does not strip the sentinel, so the reserved field name is
observable through the public interface. -/
theorem c10_marker_readable (sn pool key : Str) (st : State) (m : List (Str × PVal))
    (st' : State) (default : PVal)
    (h : Redis.put_hash sn pool key [] none st = .ok (m, st')) :
    Redis.get_hash_item sn pool key Redis.marker default st' = .ok (.bool true) := by
  rcases hl : stLookup (Redis.fqkn sn pool key) st with _ | ⟨v, t⟩
  · simp only [Redis.put_hash, StrictRedis.hmset, hl, List.isEmpty_nil, if_true,
      List.map_cons, List.map_nil, alUpdates_single] at h
    obtain ⟨-, rfl⟩ := Except.ok.inj h
    simp [Redis.get_hash_item, Redis.has, StrictRedis.exists_, StrictRedis.hget,
      stLookup_set_self, alLookup_update_self, loads, dumps]
  · cases v with
    | hash h0 =>
      simp only [Redis.put_hash, StrictRedis.hmset, hl, List.isEmpty_nil, if_true,
        List.map_cons, List.map_nil, alUpdates_single] at h
      obtain ⟨-, rfl⟩ := Except.ok.inj h
      simp [Redis.get_hash_item, Redis.has, StrictRedis.exists_, StrictRedis.hget,
        stLookup_set_self, alLookup_update_self, loads, dumps]
    | str s =>
      simp [Redis.put_hash, StrictRedis.hmset, hl] at h
    | list l =>
      simp [Redis.put_hash, StrictRedis.hmset, hl] at h

/-- Witness for C10: storing an empty hash at an absent key and reading the
marker field back with default `pyNone` yields `True`. -/
theorem c10_marker_readable_witness :
    Redis.get_hash_item "s".data "p".data "k".data Redis.marker PVal.pyNone
      (stSet (Redis.fqkn "s".data "p".data "k".data)
        (.hash [(Redis.marker, dumps (.bool true))], none) []) = .ok (.bool true) :=
  c10_marker_readable "s".data "p".data "k".data [] [(Redis.marker, PVal.bool true)]
    (stSet (Redis.fqkn "s".data "p".data "k".data)
      (.hash [(Redis.marker, dumps (.bool true))], none) []) PVal.pyNone rfl

/-- Counterexample to claim C2 as stated: when the key already holds a hash
with a field, `put_hash(p, k, {})` merges the marker into it (HMSET), so
`get_hash(p, k)` afterwards returns the pre-existing field, not `{}`. -/
theorem c2_counterexample :
    (do
      let r ← Redis.put_hash "s".data "p".data "k".data [] none
        [(Redis.fqkn "s".data "p".data "k".data, (.hash [("x".data, dumps (.int 7))], none))]
      Redis.get_hash "s".data "p".data "k".data none r.2) =
      .ok [("x".data, .int 7)] ∧
    (Except.ok [("x".data, PVal.int 7)] : Except DriverErr (List (Str × PVal))) ≠ .ok [] := by
  exact ⟨by decide, by decide⟩

/-- Claim C2 (amended: the key is absent beforehand, i.e. the empty hash is
stored afresh): after `put_hash(p, k, {})` the driver has written exactly the
marker hash, `get_hash(p, k)` returns the empty mapping (the sentinel field
is stripped), and `has(p, k)` is `True`. -/
theorem c2_empty_hash_store (sn pool key : Str) (st : State)
    (habs : stLookup (Redis.fqkn sn pool key) st = none) :
    Redis.put_hash sn pool key [] none st =
      .ok ([(Redis.marker, PVal.bool true)],
        stSet (Redis.fqkn sn pool key)
          (.hash [(Redis.marker, dumps (PVal.bool true))], none) st) ∧
    Redis.get_hash sn pool key none
      (stSet (Redis.fqkn sn pool key)
        (.hash [(Redis.marker, dumps (PVal.bool true))], none) st) = .ok [] ∧
    Redis.has sn pool key
      (stSet (Redis.fqkn sn pool key)
        (.hash [(Redis.marker, dumps (PVal.bool true))], none) st) = true := by
  refine ⟨?_, ?_, ?_⟩
  · simp [Redis.put_hash, StrictRedis.hmset, habs, alUpdates_single, alUpdate]
  · simp [Redis.get_hash, Redis.has, StrictRedis.exists_, StrictRedis.hvals,
      StrictRedis.hkeys, stLookup_set_self, Redis.buildHash, Redis.bsDecode]
  · simp [Redis.has, StrictRedis.exists_, stLookup_set_self]

/-- Witness for C2 (amended) at the empty backend state. -/
theorem c2_empty_hash_store_witness :
    Redis.get_hash "s".data "p".data "k".data none
      (stSet (Redis.fqkn "s".data "p".data "k".data)
        (.hash [(Redis.marker, dumps (PVal.bool true))], none) []) = .ok [] ∧
    Redis.has "s".data "p".data "k".data
      (stSet (Redis.fqkn "s".data "p".data "k".data)
        (.hash [(Redis.marker, dumps (PVal.bool true))], none) []) = true :=
  ⟨(c2_empty_hash_store "s".data "p".data "k".data [] (by decide)).2.1,
   (c2_empty_hash_store "s".data "p".data "k".data [] (by decide)).2.2⟩

/-- Claim C1 evaluated at the failing input: the key holds the hash
`{'b': 2}`, then `put_hash(p, k, {'a': 1})` runs; afterwards `get_hash`
still reads field `'b'` — HMSET merges, so `put_hash` is a merge, not the
full replace the specification demands. -/
theorem c1_put_hash_merges :
    (do
      let r ← Redis.put_hash "s".data "p".data "k".data [("a".data, .int 1)] none
        [(Redis.fqkn "s".data "p".data "k".data, (.hash [("b".data, dumps (.int 2))], none))]
      Redis.get_hash "s".data "p".data "k".data none r.2) =
      .ok [("b".data, .int 2), ("a".data, .int 1)] ∧
    alLookup "b".data [("b".data, PVal.int 2), ("a".data, PVal.int 1)] = some (.int 2) := by
  exact ⟨by decide, by decide⟩

/-- Claim C4 evaluated at the failing input: `get_hash` with the explicit
field list `['a']` on a hash that has field `'a'` raises `AttributeError`
(`'str' object has no attribute 'decode'`) instead of returning the mapping. -/
theorem c4_get_hash_fields_attribute_error :
    Redis.get_hash "s".data "p".data "k".data (some ["a".data])
      [(Redis.fqkn "s".data "p".data "k".data, (.hash [("a".data, dumps (.int 1))], none))] =
      .error .attributeError := by
  decide

/-- Lemma: `LRANGE` with non-negative start and inclusive stop `endN - 1` (with
`endN ≥ 1`) selects exactly the half-open slice `[start, endN)`. -/
theorem lrangeList_take_drop (l : List Ser) (start endN : Nat) (he : 1 ≤ endN) :
    StrictRedis.lrangeList l (start : Int) ((endN : Int) - 1) = (l.take endN).drop start := by
  simp only [StrictRedis.lrangeList]
  have hs : ¬((start : Int) < 0) := by omega
  have ht : ¬((endN : Int) - 1 < 0) := by omega
  rw [if_neg hs, if_neg ht]
  by_cases hgt : (start : Int) > min ((endN : Int) - 1) ((l.length : Int) - 1)
  · rw [if_pos hgt]
    symm
    rw [List.drop_eq_nil_iff, List.length_take]
    omega
  · rw [if_neg hgt]
    have h1 : (min ((endN : Int) - 1) ((l.length : Int) - 1)).toNat + 1 = min endN l.length := by
      omega
    have h2 : ((start : Int)).toNat = start := by omega
    rw [h1, h2]
    congr 1
    exact List.take_eq_take.mpr (by omega)

/-- Lemma: `LRANGE` with non-negative start and inclusive stop `LLEN key` (the
omitted-end conversion) selects the suffix from `start`. -/
theorem lrangeList_drop (l : List Ser) (start : Nat) :
    StrictRedis.lrangeList l (start : Int) (l.length : Int) = l.drop start := by
  simp only [StrictRedis.lrangeList]
  have hs : ¬((start : Int) < 0) := by omega
  have ht : ¬((l.length : Int) < 0) := by omega
  rw [if_neg hs, if_neg ht]
  by_cases hgt : (start : Int) > min ((l.length : Int)) ((l.length : Int) - 1)
  · rw [if_pos hgt]
    symm
    rw [List.drop_eq_nil_iff]
    omega
  · rw [if_neg hgt]
    have h1 : (min ((l.length : Int)) ((l.length : Int) - 1)).toNat + 1 = l.length := by
      omega
    have h2 : ((start : Int)).toNat = start := by omega
    rw [h1, h2, List.take_length]

/-- Counterexample to claim C3 as stated: with `end = 0` supplied, the code
converts it to the backend stop index `-1`, which Redis reads as the last
element, so `get_list(p, k, 0, 0)` returns the whole list instead of the
empty half-open slice `[0, 0)`. -/
theorem c3_counterexample :
    (do
      let r ← Redis.put_list "s".data "p".data "k".data [.int 1, .int 2, .int 3] none []
      Redis.get_list "s".data "p".data "k".data 0 (some 0) r.2) =
      .ok [.int 1, .int 2, .int 3] ∧
    (Except.ok [PVal.int 1, PVal.int 2, PVal.int 3] : Except DriverErr (List PVal)) ≠ .ok [] :=
  ⟨by decide, by decide⟩

/-- Claim C3 (amended: for non-negative `start` and supplied `end ≥ 1`; with
`end ≤ 0` the converted backend index is negative and counts from the tail):
on a key holding a list, `get_list(p, k, start, end)` returns the half-open
slice `[start, end)`, and `get_list(p, k, start)` with `end` omitted returns
the elements from `start` through the last element. -/
theorem c3_get_list_halfopen (sn pool key : Str) (st : State) (l : List Ser) (t : Option Nat)
    (start endN : Nat)
    (hl : stLookup (Redis.fqkn sn pool key) st = some (.list l, t)) (he : 1 ≤ endN) :
    Redis.get_list sn pool key (start : Int) (some (endN : Int)) st =
      .ok (((l.take endN).drop start).map loads) ∧
    Redis.get_list sn pool key (start : Int) none st = .ok ((l.drop start).map loads) := by
  constructor
  · simp [Redis.get_list, Redis.has, StrictRedis.exists_, hl, StrictRedis.lrange,
      lrangeList_take_drop l start endN he]
  · simp [Redis.get_list, Redis.has, StrictRedis.exists_, hl, Redis.list_len,
      StrictRedis.llen, StrictRedis.lrange, lrangeList_drop l start]

/-- Witness for C3 (amended): after storing `[1, 2, 3]`,
`get_list(p, k, 0, 2) = [1, 2]` and `get_list(p, k) = [1, 2, 3]`. -/
theorem c3_get_list_halfopen_witness :
    Redis.get_list "s".data "p".data "k".data 0 (some 2)
      [(Redis.fqkn "s".data "p".data "k".data,
        (.list [dumps (.int 1), dumps (.int 2), dumps (.int 3)], none))] =
      .ok [.int 1, .int 2] ∧
    Redis.get_list "s".data "p".data "k".data 0 none
      [(Redis.fqkn "s".data "p".data "k".data,
        (.list [dumps (.int 1), dumps (.int 2), dumps (.int 3)], none))] =
      .ok [.int 1, .int 2, .int 3] :=
  ⟨(c3_get_list_halfopen "s".data "p".data "k".data
      [(Redis.fqkn "s".data "p".data "k".data,
        (.list [dumps (.int 1), dumps (.int 2), dumps (.int 3)], none))]
      [dumps (.int 1), dumps (.int 2), dumps (.int 3)] none 0 2 rfl (by omega)).1,
   (c3_get_list_halfopen "s".data "p".data "k".data
      [(Redis.fqkn "s".data "p".data "k".data,
        (.list [dumps (.int 1), dumps (.int 2), dumps (.int 3)], none))]
      [dumps (.int 1), dumps (.int 2), dumps (.int 3)] none 0 2 rfl (by omega)).2⟩

theorem isPrefixOf_append_self (p t : Str) : p.isPrefixOf (p ++ t) = true := by
  induction p with
  | nil => simp
  | cons c cs ih => simp [List.isPrefixOf_cons₂, ih]

/-- A scan that never meets the pattern copies its input (any fuel covering
the input length). -/
theorem replAllGo_id (pat repl : Str) :
    ∀ (fuel : Nat) (s : Str), s.length ≤ fuel → containsSub pat s = false →
      replAllGo pat repl fuel s = s := by
  intro fuel
  induction fuel with
  | zero =>
    intro s hlen _
    have : s = [] := List.eq_nil_of_length_eq_zero (Nat.le_zero.mp hlen)
    subst this
    rfl
  | succ fuel ih =>
    intro s hlen hc
    cases s with
    | nil => rfl
    | cons c cs =>
      have hsplit := hc
      simp only [containsSub, Bool.or_eq_false_iff] at hsplit
      obtain ⟨hpre, hcs⟩ := hsplit
      have hlen2 : cs.length ≤ fuel := by
        simp only [List.length_cons] at hlen
        omega
      simp [replAllGo, hpre, ih cs hlen2 hcs]

/-- Stripping: replacing a non-empty pattern by nothing in `pat ++ k` yields
`k` whenever `pat` does not occur inside `k` itself. -/
theorem replaceAll_strip (pat k : Str) (hne : pat ≠ []) (hc : containsSub pat k = false) :
    replaceAll (pat ++ k) pat [] = k := by
  cases pat with
  | nil => exact absurd rfl hne
  | cons c ps =>
    show replAllGo (c :: ps) [] ((c :: ps) ++ k).length ((c :: ps) ++ k) = k
    have hlen : ((c :: ps) ++ k).length = (ps.length + k.length) + 1 := by
      simp [List.length_append]
    rw [hlen]
    have hpre : (c :: ps).isPrefixOf (c :: (ps ++ k)) = true :=
      isPrefixOf_append_self (c :: ps) k
    simp only [List.cons_append]
    simp [replAllGo, hpre, List.drop_left]
    exact replAllGo_id (c :: ps) [] (ps.length + k.length) k (by omega) hc

theorem poolNs_ne_nil (sn pool : Str) : Redis.poolNs sn pool ≠ [] := by
  cases sn <;> simp [Redis.poolNs]

/-- Counterexample to claim C9 as stated: the code strips the namespace
prefix with Python `str.replace`, which removes every occurrence.  Storing
the logical key `"s:p:x"` (which contains the prefix `"s:p:"` of server
`"s"`, pool `"p"` as a substring) makes `keys` yield `"x"`, not the stored
logical key. -/
theorem c9_counterexample :
    Redis.keys "s".data "p".data
      (Redis.put "s".data "p".data "s:p:x".data (.int 1) none []).2 = ["x".data] ∧
    "x".data ≠ "s:p:x".data :=
  ⟨by decide, by decide⟩

/-- Claim C9 (amended: provided no stored logical key contains the pool's
namespace prefix as a substring — `str.replace` removes every occurrence, so
such keys come back altered): `keys(p)` yields exactly the logical keys
stored in the pool, each produced by stripping the namespace prefix. -/
theorem c9_keys_strip (sn pool : Str) (ks : List (Str × Entry))
    (hfree : ∀ kv ∈ ks, containsSub (Redis.poolNs sn pool) kv.1 = false) :
    Redis.keys sn pool (ks.map (fun kv => (Redis.fqkn sn pool kv.1, kv.2))) =
      ks.map (fun kv => kv.1) := by
  induction ks with
  | nil => rfl
  | cons kv rest ih =>
    obtain ⟨k, e⟩ := kv
    have hk : containsSub (Redis.poolNs sn pool) k = false :=
      hfree (k, e) (List.mem_cons_self _ _)
    have hrest : ∀ kv ∈ rest, containsSub (Redis.poolNs sn pool) kv.1 = false :=
      fun kv hm => hfree kv (List.mem_cons_of_mem _ hm)
    have hih := ih hrest
    simp only [Redis.keys, StrictRedis.keysPre, List.map_cons, Redis.fqkn_eq_poolNs_append,
      List.filter_cons, isPrefixOf_append_self, if_true] at hih ⊢
    rw [replaceAll_strip (Redis.poolNs sn pool) k (poolNs_ne_nil sn pool) hk]
    exact congrArg (fun t => k :: t) hih

/-- Witness for C9 (amended): a pool holding logical keys `"a"` and `"b"`
(the state produced by the two `put` calls) yields exactly `["a", "b"]`. -/
theorem c9_keys_strip_witness :
    Redis.keys "s".data "p".data
      [(Redis.fqkn "s".data "p".data "a".data, (.str (dumps (.int 1)), none)),
       (Redis.fqkn "s".data "p".data "b".data, (.str (dumps (.int 2)), none))] =
      ["a".data, "b".data] ∧
    (Redis.put "s".data "p".data "b".data (.int 2) none
      (Redis.put "s".data "p".data "a".data (.int 1) none []).2).2 =
      [(Redis.fqkn "s".data "p".data "a".data, (.str (dumps (.int 1)), none)),
       (Redis.fqkn "s".data "p".data "b".data, (.str (dumps (.int 2)), none))] :=
  ⟨c9_keys_strip "s".data "p".data
      [("a".data, (.str (dumps (.int 1)), none)), ("b".data, (.str (dumps (.int 2)), none))]
      (by decide),
   by decide⟩

end CacheRedis
